import Mathlib

/-!
Shallow embedding of the `webify_models` image-processing pipeline
(`scan_dir_for_images.rs`, `convert_to_png.rs`, `move_to_textures_dir.rs`).

Paths are modelled as their lists of components (`FsPath`), the filesystem as
an association list from paths to file data (`FS`), and the outcomes of the
external filesystem / codec calls by an oracle (`FsEnv`).  A Rust
`Result::Ok`/`Result::Err` return is modelled by `PipeResult.ok`/`PipeResult.err`,
and a `panic!` (process abort) by `PipeResult.fatal` carrying the panic message.
-/

/-- A filesystem path, as its list of components (what `Path::components` yields). -/
abbrev FsPath := List String

/-- Render a path with `/` separators (used in panic messages that name a path). -/
def pathToString (p : FsPath) : String :=
  String.mk (List.intercalate ['/'] (p.map String.toList))

/-- Split a file name's characters at every dot, as `str::split('.')` does:
the number of groups is one more than the number of dots. -/
def splitDots : List Char → List (List Char)
  | [] => [[]]
  | c :: rest =>
    if c = '.' then [] :: splitDots rest
    else
      match splitDots rest with
      | [] => [[c]]
      | g :: gs => (c :: g) :: gs

/-- Model of `Path::extension` on a file name: the portion after the last dot; `none` when
there is no dot, or when the only dot is the leading one of a hidden file. -/
def extension_of (name : String) : Option String :=
  match splitDots name.toList with
  | [] => none
  | [_] => none
  | [[], _] => none
  | parts => (parts.getLast?).map String.mk

/-- Model of `Path::file_stem` on a file name: the portion before the last dot, or the
whole name when `extension_of` would be `none`. -/
def file_stem_of (name : String) : String :=
  match splitDots name.toList with
  | [] => name
  | [_] => name
  | [[], _] => name
  | parts => String.mk (List.intercalate ['.'] parts.dropLast)

/-- Model of `Path::with_extension`: replace the extension of the last component. -/
def with_extension (p : FsPath) (ext : String) : FsPath :=
  match p.getLast? with
  | none => p
  | some name => p.dropLast ++ [file_stem_of name ++ "." ++ ext]

/-- Model of `Path::ends_with`: whole-component suffix test. -/
def ends_with (p child : FsPath) : Bool := child.isSuffixOf p

/-- Model of the `strip` of a base path from the front of another path: drop `base` from the front of `p`, or fail. -/
def stripBase (base p : FsPath) : Option FsPath :=
  if base.isPrefixOf p then some (p.drop base.length) else none

/-- Model of `Path::ancestors` of a relative path, as a list: the path itself, then each
result of repeatedly dropping the last component, ending with the empty path. -/
def ancestors (p : FsPath) : List FsPath :=
  (List.range (p.length + 1)).map (fun i => p.take (p.length - i))

/-- The `Image` struct threaded through the pipeline: current path plus the
extension string captured at scan time. -/
structure Image where
  path : FsPath
  extension : String
deriving DecidableEq, Repr

/-- Image formats the external codec can report. -/
inductive ImageFormat : Type where
  | png
  | jpeg
  | gif
  | tiff
  | tga
  | bmp
deriving DecidableEq, Repr

/-- The data of one on-disk file, abstracted to what the pipeline observes:
the format the external codec detects for it (`none` = unrecognized). -/
structure FileData where
  format : Option ImageFormat
deriving DecidableEq, Repr

/-- The filesystem: an association list from paths to file data. -/
abbrev FS := List (FsPath × FileData)

/-- Look up the file stored at `p`. -/
def fsRead (fs : FS) (p : FsPath) : Option FileData :=
  match fs with
  | [] => none
  | e :: rest => if e.1 = p then some e.2 else fsRead rest p

/-- Remove the file at `p` (no-op when absent). -/
def fsRemove (fs : FS) (p : FsPath) : FS :=
  match fs with
  | [] => []
  | e :: rest => if e.1 = p then fsRemove rest p else e :: fsRemove rest p

/-- Create or overwrite the file at `p`. -/
def fsWrite (fs : FS) (p : FsPath) (d : FileData) : FS :=
  (p, d) :: fsRemove fs p

/-- Oracle for the outcomes of the external filesystem and codec calls that can
fail for reasons outside the program (permissions, disk full, bad data). -/
structure FsEnv where
  openFails : Bool
  decodeFails : Bool
  saveFails : Bool
  removeFails : Bool
  createDirFails : Bool
  copyFails : Bool
deriving DecidableEq, Repr

/-- An environment in which every external call succeeds. -/
def envAllOk : FsEnv :=
  { openFails := false, decodeFails := false, saveFails := false,
    removeFails := false, createDirFails := false, copyFails := false }

/-- Result of one pipeline step: `ok` and `err` are the Rust `Result` values
(paired with the filesystem after the step), `fatal` is a `panic!` that aborts
the whole process, carrying the panic message. -/
inductive PipeResult (α : Type) : Type where
  | ok : α → FS → PipeResult α
  | err : FS → PipeResult α
  | fatal : String → FS → PipeResult α
deriving DecidableEq, Repr

/-- Whether a result is a process abort. -/
def PipeResult.isFatal {α : Type} : PipeResult α → Bool
  | .fatal _ _ => true
  | _ => false

/-- The filesystem state a result leaves behind. -/
def PipeResult.fsOf {α : Type} : PipeResult α → FS
  | .ok _ f => f
  | .err f => f
  | .fatal _ f => f

/-- Message of the panics at convert_to_png.rs:40 and convert_to_png.rs:47. -/
def openFailMsg : String := "Failed to open image during PNG conversion"

/-- Message of the panic at convert_to_png.rs:52. -/
def saveFailMsg (p : FsPath) : String :=
  "Could not convert " ++ pathToString p ++ " to PNG"

/-- Message of the panic at convert_to_png.rs:58 (format absent or TIFF). -/
def badFormatMsg (p : FsPath) : String :=
  "Failed to convert provided image: " ++ pathToString p

/-- Model of `convert` (convert_to_png.rs:37-62).  Opens the file (panic on failure),
asks the codec for the format; when the format is present and not TIFF it
decodes (panic on failure), saves a PNG sibling (panic on failure), then
deletes the original with `?` (recoverable error).  Otherwise it panics with a
message naming the path. -/
def convert (image : Image) (env : FsEnv) (fs : FS) : PipeResult Image :=
  match fsRead fs image.path with
  | none => .fatal openFailMsg fs
  | some data =>
    if env.openFails then .fatal openFailMsg fs
    else
      if data.format.isSome ∧ data.format ≠ some ImageFormat.tiff then
        if env.decodeFails then .fatal openFailMsg fs
        else if env.saveFails then .fatal (saveFailMsg image.path) fs
        else
          let newPath := with_extension image.path "png"
          let fs1 := fsWrite fs newPath { format := some ImageFormat.png }
          if env.removeFails then .err fs1
          else .ok { image with path := newPath } (fsRemove fs1 image.path)
      else .fatal (badFormatMsg image.path) fs

/-- Model of `convert_to_png` (convert_to_png.rs:18-34): skip when the extension field
is `"png"`, otherwise run `convert`. -/
def convert_to_png (image : Image) (env : FsEnv) (fs : FS) : PipeResult Image :=
  if image.extension = "png" then .ok image fs
  else convert image env fs

/-- Message of the `unwrap` panic at move_to_textures_dir.rs:19. -/
def noFileNameMsg : String := "called Option.unwrap on a None value: no file name"

/-- Message of the `unwrap` panics at move_to_textures_dir.rs:57-60. -/
def pathInferenceMsg : String :=
  "called Option.unwrap on a None value in get_new_textures_path"

/-- Model of `get_new_textures_path` (move_to_textures_dir.rs:53-67): strip `base_path`
from the image path (`unwrap`: panic when it is not a prefix), take the
ancestor at index `count - 2` of the remainder (the top-level component;
`unwrap`/underflow: panic when the remainder is empty), and join
`base_path/<that component>/materials/textures`.  `none` models the panics. -/
def get_new_textures_path (image : Image) (base_path : FsPath) : Option FsPath :=
  match stripBase base_path image.path with
  | none => none
  | some rel =>
    let anc := ancestors rel
    if 2 ≤ anc.length then
      match anc[anc.length - 2]? with
      | none => none
      | some model_path => some (base_path ++ model_path ++ ["materials", "textures"])
    else none

/-- Model of `move_to_textures_dir` (move_to_textures_dir.rs:14-50).  When the path does
not already end in `materials/textures/<name>` or `meshes/<name>`: compute the
canonical directory (panic when inference fails), `create_dir_all` it (`?`),
`fs::copy` the file there under its original name (`?`), `fs::remove_file` the
original (`?`), and return the image with the new path.  Otherwise return the
image unchanged. -/
def move_to_textures_dir (image : Image) (base_path : FsPath) (env : FsEnv)
    (fs : FS) : PipeResult Image :=
  match image.path.getLast? with
  | none => .fatal noFileNameMsg fs
  | some fname =>
    if !(ends_with image.path ["materials", "textures", fname]) &&
        !(ends_with image.path ["meshes", fname]) then
      match get_new_textures_path image base_path with
      | none => .fatal pathInferenceMsg fs
      | some new_textures_path =>
        if env.createDirFails then .err fs
        else
          match fsRead fs image.path with
          | none => .err fs
          | some data =>
            if env.copyFails then .err fs
            else
              let fs1 := fsWrite fs (new_textures_path ++ [fname]) data
              if env.removeFails then .err fs1
              else
                .ok { image with path := new_textures_path ++ [fname] }
                  (fsRemove fs1 image.path)
    else .ok image fs

/-- The whitelist `TEXTURE_IMAGE_TYPES` (scan_dir_for_images.rs:7-9). -/
def TEXTURE_IMAGE_TYPES : List String :=
  ["tif", "tga", "tiff", "jpeg", "jpg", "gif", "png"]

mutual
/-- A directory tree: a file, or a directory with a name, a flag saying whether
`fs::read_dir` succeeds on it, and its entries in iteration order. -/
inductive DirTree : Type where
  | file : String → DirTree
  | dir : String → Bool → EntryList → DirTree
deriving DecidableEq

/-- The entries of one directory, in the order `read_dir` yields them. -/
inductive EntryList : Type where
  | nil : EntryList
  | cons : DirTree → EntryList → EntryList
deriving DecidableEq
end

mutual
/-- Model of `recursive_scan` (scan_dir_for_images.rs:35-60): when the node is a
directory, read its entries (`none` models the propagated read error);
otherwise return the accumulator unchanged. -/
def recursive_scan (node : DirTree) (nodePath : FsPath) (images : List Image) :
    Option (List Image) :=
  match node with
  | .file _ => some images
  | .dir _ readable entries =>
    if readable then scanEntries entries nodePath images else none

/-- The entry loop of `recursive_scan`: recurse into directories, and push an
`Image` for each file whose extension is in the whitelist. -/
def scanEntries (entries : EntryList) (dirPath : FsPath) (images : List Image) :
    Option (List Image) :=
  match entries with
  | .nil => some images
  | .cons e rest =>
    match e with
    | .dir name _ _ =>
      match recursive_scan e (dirPath ++ [name]) images with
      | none => none
      | some imgs => scanEntries rest dirPath imgs
    | .file fname =>
      let ext := (extension_of fname).getD ""
      scanEntries rest dirPath
        (if TEXTURE_IMAGE_TYPES.contains ext then
          images ++ [{ path := dirPath ++ [fname], extension := ext }]
        else images)
end

/-- Byte-wise lexicographic `≤` on character lists, as Rust's `str::cmp`. -/
def charListLe : List Char → List Char → Bool
  | [], _ => true
  | _ :: _, [] => false
  | a :: as, b :: bs => if a = b then charListLe as bs else decide (a < b)

/-- Lexicographic `≤` on strings. -/
def extLe (a b : String) : Bool := charListLe a.toList b.toList

/-- The comparator of `images.sort_by` at scan_dir_for_images.rs:26:
`a` may come before `b` iff `b.extension <= a.extension` (descending). -/
def extDescRel (a b : Image) : Prop := extLe b.extension a.extension = true

instance : DecidableRel extDescRel := fun _ _ => Bool.decEq _ _

/-- Model of `scan_dir_for_images` (scan_dir_for_images.rs:12-31): run the recursive
scan from the root (`none` models the panic on a scan error) and sort the
result by extension, descending, with a stable sort. -/
def scan_dir_for_images (root : DirTree) (rootPath : FsPath) :
    Option (List Image) :=
  match recursive_scan root rootPath [] with
  | none => none
  | some images => some (List.insertionSort extDescRel images)

mutual
/-- Whether the walk from this node reaches a directory `read_dir` fails on. -/
def hasUnreadableDir : DirTree → Bool
  | .file _ => false
  | .dir _ readable entries => !readable || hasUnreadableEntries entries

/-- Whether some entry (recursively) reaches an unreadable directory. -/
def hasUnreadableEntries : EntryList → Bool
  | .nil => false
  | .cons e rest => hasUnreadableDir e || hasUnreadableEntries rest
end

/-! ### Helper lemmas about the filesystem model -/

theorem fsRead_fsRemove_self (fs : FS) (p : FsPath) :
    fsRead (fsRemove fs p) p = none := by
  induction fs with
  | nil => simp [fsRead, fsRemove]
  | cons e rest ih =>
    by_cases h : e.1 = p <;> simp [fsRead, fsRemove, h, ih]

theorem fsRead_fsRemove_ne (fs : FS) (p q : FsPath) (h : q ≠ p) :
    fsRead (fsRemove fs p) q = fsRead fs q := by
  have hpq : ¬ p = q := fun hq => h hq.symm
  induction fs with
  | nil => simp [fsRemove]
  | cons e rest ih =>
    by_cases he : e.1 = p
    · simp [fsRead, fsRemove, he, hpq, ih]
    · by_cases heq : e.1 = q <;> simp [fsRead, fsRemove, he, heq, ih, h, hpq]

theorem fsRead_fsWrite_self (fs : FS) (p : FsPath) (d : FileData) :
    fsRead (fsWrite fs p d) p = some d := by
  simp [fsRead, fsWrite]

theorem fsRead_fsWrite_ne (fs : FS) (p q : FsPath) (d : FileData) (h : q ≠ p) :
    fsRead (fsWrite fs p d) q = fsRead fs q := by
  have hpq : ¬ p = q := fun hq => h hq.symm
  simp [fsRead, fsWrite, hpq, fsRead_fsRemove_ne fs p q h]

/-! ### Helper lemmas about paths -/

theorem stripBase_append (base rel : FsPath) :
    stripBase base (base ++ rel) = some rel := by
  have h : base.isPrefixOf (base ++ rel) = true := by
    rw [ List.isPrefixOf_iff_prefix]
    exact List.prefix_append base rel
  simp [stripBase, h, List.drop_left]

theorem ancestors_length (p : FsPath) : (ancestors p).length = p.length + 1 := by
  simp [ancestors]

theorem get_new_textures_path_append (base : FsPath) (c : String)
    (t : List String) (e : String) :
    get_new_textures_path ⟨base ++ c :: t, e⟩ base =
      some (base ++ [c] ++ ["materials", "textures"]) := by
  simp only [get_new_textures_path, stripBase_append]
  have hlen : (ancestors (c :: t)).length = t.length + 2 := by
    simp [ancestors_length]
  have hidx : (ancestors (c :: t))[(ancestors (c :: t)).length - 2]? =
      some ((c :: t).take 1) := by
    rw [hlen]
    show (ancestors (c :: t))[t.length]? = some ((c :: t).take 1)
    unfold ancestors
    rw [List.getElem?_map]
    have hr : (List.range ((c :: t).length + 1))[t.length]? = some t.length :=
      List.getElem?_range (by simp only [List.length_cons]; omega)
    rw [hr]
    have harith : (c :: t).length - t.length = 1 := by simp
    simp [harith]
  rw [hidx]
  have h2 : 2 ≤ (ancestors (c :: t)).length := by omega
  simp [h2, List.take_succ_cons]

theorem getLast?_append_cons_concat (base : FsPath) (c : String)
    (mid : List String) (fname : String) :
    (base ++ c :: (mid ++ [fname])).getLast? = some fname := by
  have : base ++ c :: (mid ++ [fname]) = (base ++ c :: mid) ++ [fname] := by
    simp
  rw [this, List.getLast?_concat]

theorem canonical_suffix (base : FsPath) (c fname : String) :
    ends_with (base ++ [c] ++ ["materials", "textures", fname])
      ["materials", "textures", fname] = true := by
  unfold ends_with
  rw [List.isSuffixOf_iff_suffix]
  exact List.suffix_append (base ++ [c]) ["materials", "textures", fname]

/-! ### Helper lemmas about the descending-extension order -/

theorem charListLe_total : ∀ a b, charListLe a b = true ∨ charListLe b a = true := by
  intro a
  induction a with
  | nil => intro b; left; rfl
  | cons x xs ih =>
    intro b
    cases b with
    | nil => right; rfl
    | cons y ys =>
      by_cases hxy : x = y
      · subst hxy
        rcases ih ys with h | h
        · left; simpa [charListLe] using h
        · right; simpa [charListLe] using h
      · rcases lt_trichotomy x y with h | h | h
        · left; simp [charListLe, hxy, h]
        · exact absurd h hxy
        · right; simp [charListLe, Ne.symm hxy, h, not_lt_of_gt h]

theorem charListLe_trans :
    ∀ a b c, charListLe a b = true → charListLe b c = true → charListLe a c = true := by
  intro a
  induction a with
  | nil => intro b c _ _; rfl
  | cons x xs ih =>
    intro b c h1 h2
    cases b with
    | nil => simp [charListLe] at h1
    | cons y ys =>
      cases c with
      | nil => simp [charListLe] at h2
      | cons z zs =>
        by_cases hxy : x = y <;> by_cases hyz : y = z
        · subst hxy; subst hyz
          simp only [charListLe, if_pos rfl] at h1 h2 ⊢
          exact ih ys zs h1 h2
        · subst hxy
          simp [charListLe, hyz] at h2 ⊢
          simp [charListLe, h2]
        · subst hyz
          simp [charListLe, hxy] at h1 ⊢
          simp [charListLe, h1]
        · simp [charListLe, hxy] at h1
          simp [charListLe, hyz] at h2
          have hxz : x < z := lt_trans h1 h2
          simp [charListLe, ne_of_lt hxz, hxz]

/-! ### Helper lemmas about the scanner -/

mutual
theorem recursive_scan_unread (t : DirTree) (p : FsPath) (imgs : List Image)
    (h : hasUnreadableDir t = true) : recursive_scan t p imgs = none := by
  match t with
  | .file _ => simp [hasUnreadableDir] at h
  | .dir name readable entries =>
    simp only [hasUnreadableDir, Bool.or_eq_true, Bool.not_eq_true'] at h
    rcases h with h | h
    · simp [recursive_scan, h]
    · cases hr : readable
      · simp [recursive_scan]
      · simp only [recursive_scan, if_pos rfl]
        exact scanEntries_unread entries p imgs h

theorem scanEntries_unread (es : EntryList) (p : FsPath) (imgs : List Image)
    (h : hasUnreadableEntries es = true) : scanEntries es p imgs = none := by
  match es with
  | .nil => simp [hasUnreadableEntries] at h
  | .cons e rest =>
    simp only [hasUnreadableEntries, Bool.or_eq_true] at h
    match e with
    | .file fname =>
      rcases h with h | h
      · simp [hasUnreadableDir] at h
      · simp only [scanEntries]
        exact scanEntries_unread rest p _ h
    | .dir name readable sub =>
      rcases h with h | h
      · simp only [scanEntries]
        rw [recursive_scan_unread _ _ _ h]
      · simp only [scanEntries]
        cases hr : recursive_scan (.dir name readable sub) (p ++ [name]) imgs with
        | none => rfl
        | some imgs2 => exact scanEntries_unread rest p imgs2 h
end

theorem get_new_textures_path_eq (img : Image) (base : FsPath) (c : String)
    (t : List String) (h : img.path = base ++ c :: t) :
    get_new_textures_path img base =
      some (base ++ [c] ++ ["materials", "textures"]) := by
  have h2 := get_new_textures_path_append base c t img.extension
  rw [← h] at h2
  exact h2

/-! ### Claims -/

/-- Claim C6: for every asset whose extension field equals `"png"`,
`convert_to_png` returns the asset unchanged with the filesystem untouched, for
every environment and every filesystem; the decision uses only the extension
captured at scan time, regardless of what the path currently contains. -/
theorem claim_C6_png_fast_path (img : Image) (env : FsEnv) (fs : FS)
    (h : img.extension = "png") : convert_to_png img env fs = .ok img fs := by
  simp [convert_to_png, h]

/-- Claim C6 witness: a concrete asset marked `png`, in an environment where
every external call would fail and with a filesystem not even containing the
file, is still returned unchanged. -/
theorem claim_C6_witness :
    convert_to_png ⟨["a", "t.png"], "png"⟩ ⟨true, true, true, true, true, true⟩ [] =
      .ok ⟨["a", "t.png"], "png"⟩ [] :=
  claim_C6_png_fast_path _ _ _ rfl

/-- Claim C7: an asset whose path already ends in `materials/textures/<name>`
or `meshes/<name>` is returned unchanged by `move_to_textures_dir`, with the
filesystem untouched, for every environment and every filesystem. -/
theorem claim_C7_canonical_location_unchanged (img : Image) (base : FsPath)
    (fname : String) (env : FsEnv) (fs : FS)
    (hlast : img.path.getLast? = some fname)
    (h : ends_with img.path ["materials", "textures", fname] = true ∨
         ends_with img.path ["meshes", fname] = true) :
    move_to_textures_dir img base env fs = .ok img fs := by
  rcases h with h | h <;> simp [move_to_textures_dir, hlast, h]

/-- Claim C7 witness: a concrete asset already under `materials/textures`, in
an environment where every external call would fail, is returned unchanged. -/
theorem claim_C7_witness :
    move_to_textures_dir ⟨["root", "m", "materials", "textures", "t.png"], "png"⟩
      ["root"] ⟨true, true, true, true, true, true⟩ [] =
      .ok ⟨["root", "m", "materials", "textures", "t.png"], "png"⟩ [] :=
  claim_C7_canonical_location_unchanged _ _ "t.png" _ _ (by decide) (Or.inl (by decide))

/-- Claim C2: for an asset whose extension field is not `"png"`, when the file
opens but the codec reports no format or reports TIFF, `convert_to_png` ends in
a process abort (`fatal`, not `err`) whose message names the offending path;
the extension field is unconstrained beyond not being `"png"`, so this covers
non-image files that passed the scanner's whitelist. -/
theorem claim_C2_abort_on_undetected_or_tiff (img : Image) (env : FsEnv)
    (fs : FS) (data : FileData)
    (hext : img.extension ≠ "png")
    (hread : fsRead fs img.path = some data)
    (hopen : env.openFails = false)
    (hfmt : data.format = none ∨ data.format = some ImageFormat.tiff) :
    convert_to_png img env fs = .fatal (badFormatMsg img.path) fs := by
  have hcond : ¬ (data.format.isSome ∧ data.format ≠ some ImageFormat.tiff) := by
    rcases hfmt with h | h <;> simp [h]
  simp [convert_to_png, hext, convert, hread, hopen, hcond]

/-- Claim C2 witness: a Markdown file scanned with a `jpg` extension, whose
content the codec cannot recognize, makes the conversion abort with a message
naming the path. -/
theorem claim_C2_witness :
    convert_to_png ⟨["d", "README.md"], "jpg"⟩ envAllOk
      [(["d", "README.md"], ⟨none⟩)] =
      .fatal (badFormatMsg ["d", "README.md"]) [(["d", "README.md"], ⟨none⟩)] :=
  claim_C2_abort_on_undetected_or_tiff _ _ _ _ (by decide) (by decide) rfl (Or.inl rfl)

/-- Claim C10: when the asset is not already at a canonical location and
`strip_prefix` fails because the scan root is not a prefix of the asset's path,
`move_to_textures_dir` ends in a process abort (the `unwrap` panic inside
`get_new_textures_path`) rather than returning an I/O error value. -/
theorem claim_C10_panic_when_base_not_path_start (img : Image) (base : FsPath)
    (fname : String) (env : FsEnv) (fs : FS)
    (hlast : img.path.getLast? = some fname)
    (hnotTex : ends_with img.path ["materials", "textures", fname] = false)
    (hnotMesh : ends_with img.path ["meshes", fname] = false)
    (hstrip : stripBase base img.path = none) :
    move_to_textures_dir img base env fs = .fatal pathInferenceMsg fs := by
  simp [move_to_textures_dir, hlast, hnotTex, hnotMesh, get_new_textures_path, hstrip]

/-- Claim C10 witness: an asset outside the scan root makes the relocation
abort even though every external call would succeed. -/
theorem claim_C10_witness :
    move_to_textures_dir ⟨["other", "a", "t.png"], "png"⟩ ["root"] envAllOk [] =
      .fatal pathInferenceMsg [] :=
  claim_C10_panic_when_base_not_path_start _ _ "t.png" _ _ (by decide) (by decide)
    (by decide) (by decide)

/-- Claim C9: when the recursive walk reaches a directory whose `read_dir`
fails, the whole scan ends in the process abort (`none`), never in a partial
list of the assets discovered before the failure. -/
theorem claim_C9_scan_aborts_on_unreadable_dir (root : DirTree) (rootPath : FsPath)
    (h : hasUnreadableDir root = true) :
    scan_dir_for_images root rootPath = none := by
  unfold scan_dir_for_images
  rw [recursive_scan_unread root rootPath [] h]

/-- Claim C9 witness: a tree with one image file and one unreadable
subdirectory scans to the abort value, not to a singleton list. -/
theorem claim_C9_witness :
    scan_dir_for_images
      (.dir "root" true (.cons (.file "a.jpg") (.cons (.dir "sub" false .nil) .nil)))
      ["root"] = none :=
  claim_C9_scan_aborts_on_unreadable_dir _ _ (by decide)

/-- Claim C1: an asset nested at least two levels below the scan root
(`base ++ c :: mid ++ [fname]`) that is not already at a canonical location is
moved to `base/<c>/materials/textures/<fname>` where `c` is the top-level
subdirectory under which it resides: the returned asset carries that canonical
path, the file's data now lives at the canonical path, and the original path
no longer holds a file. -/
theorem claim_C1_relocates_to_top_level_textures_dir
    (img : Image) (base : FsPath) (c : String) (mid : List String) (fname : String)
    (env : FsEnv) (fs : FS) (data : FileData)
    (hpath : img.path = base ++ c :: (mid ++ [fname]))
    (hnotTex : ends_with img.path ["materials", "textures", fname] = false)
    (hnotMesh : ends_with img.path ["meshes", fname] = false)
    (hread : fsRead fs img.path = some data)
    (hcd : env.createDirFails = false) (hcp : env.copyFails = false)
    (hrm : env.removeFails = false) :
    move_to_textures_dir img base env fs =
      .ok { img with path := base ++ [c] ++ ["materials", "textures", fname] }
        (fsRemove (fsWrite fs (base ++ [c] ++ ["materials", "textures", fname]) data)
          img.path) ∧
    fsRead (fsRemove (fsWrite fs (base ++ [c] ++ ["materials", "textures", fname]) data)
        img.path) (base ++ [c] ++ ["materials", "textures", fname]) = some data ∧
    fsRead (fsRemove (fsWrite fs (base ++ [c] ++ ["materials", "textures", fname]) data)
        img.path) img.path = none := by
  have hlast : img.path.getLast? = some fname := by
    rw [hpath]; exact getLast?_append_cons_concat base c mid fname
  have hne : img.path ≠ base ++ [c] ++ ["materials", "textures", fname] := by
    intro he
    have hsuf := canonical_suffix base c fname
    rw [← he, hnotTex] at hsuf
    exact Bool.false_ne_true hsuf
  have hget : get_new_textures_path img base =
      some (base ++ [c] ++ ["materials", "textures"]) :=
    get_new_textures_path_eq img base c (mid ++ [fname]) hpath
  refine ⟨?_, ?_, ?_⟩
  · simp [move_to_textures_dir, hlast, hnotTex, hnotMesh, hget, hcd, hcp, hrm, hread,
      List.append_assoc]
  · rw [fsRead_fsRemove_ne _ _ _ (Ne.symm hne)]
    exact fsRead_fsWrite_self fs _ data
  · exact fsRead_fsRemove_self _ _

/-- Claim C1 witness: the spec's own example, `modelsRoot/characterA/randomdir/tex.png`,
relocates to `modelsRoot/characterA/materials/textures/tex.png` with the data
preserved and the original gone. -/
theorem claim_C1_witness :
    move_to_textures_dir ⟨["root", "characterA", "randomdir", "tex.png"], "png"⟩
      ["root"] envAllOk
      [(["root", "characterA", "randomdir", "tex.png"], ⟨some ImageFormat.png⟩)] =
      .ok ⟨["root"] ++ ["characterA"] ++ ["materials", "textures", "tex.png"], "png"⟩
        (fsRemove
          (fsWrite [(["root", "characterA", "randomdir", "tex.png"], ⟨some ImageFormat.png⟩)]
            (["root"] ++ ["characterA"] ++ ["materials", "textures", "tex.png"])
            ⟨some ImageFormat.png⟩)
          ["root", "characterA", "randomdir", "tex.png"]) ∧
    fsRead
      (fsRemove
        (fsWrite [(["root", "characterA", "randomdir", "tex.png"], ⟨some ImageFormat.png⟩)]
          (["root"] ++ ["characterA"] ++ ["materials", "textures", "tex.png"])
          ⟨some ImageFormat.png⟩)
        ["root", "characterA", "randomdir", "tex.png"])
      (["root"] ++ ["characterA"] ++ ["materials", "textures", "tex.png"]) =
      some ⟨some ImageFormat.png⟩ ∧
    fsRead
      (fsRemove
        (fsWrite [(["root", "characterA", "randomdir", "tex.png"], ⟨some ImageFormat.png⟩)]
          (["root"] ++ ["characterA"] ++ ["materials", "textures", "tex.png"])
          ⟨some ImageFormat.png⟩)
        ["root", "characterA", "randomdir", "tex.png"])
      ["root", "characterA", "randomdir", "tex.png"] = none :=
  claim_C1_relocates_to_top_level_textures_dir
    ⟨["root", "characterA", "randomdir", "tex.png"], "png"⟩ ["root"] "characterA"
    ["randomdir"] "tex.png" envAllOk
    [(["root", "characterA", "randomdir", "tex.png"], ⟨some ImageFormat.png⟩)]
    ⟨some ImageFormat.png⟩ rfl (by decide) (by decide) (by decide) rfl rfl rfl

/-- Claim C3 counterexample: at a concrete stray asset with the copy failing,
`move_to_textures_dir` returns the recoverable `err` value to its caller with
the filesystem unchanged — it is not a process abort, contradicting the claim
that a copy failure must stop the entire pipeline rather than be returned as a
recoverable error result. -/
theorem claim_C3_counterexample :
    move_to_textures_dir ⟨["root", "m", "d", "t.png"], "png"⟩ ["root"]
      ⟨false, false, false, false, false, true⟩
      [(["root", "m", "d", "t.png"], ⟨some ImageFormat.png⟩)] =
      .err [(["root", "m", "d", "t.png"], ⟨some ImageFormat.png⟩)] ∧
    (move_to_textures_dir ⟨["root", "m", "d", "t.png"], "png"⟩ ["root"]
      ⟨false, false, false, false, false, true⟩
      [(["root", "m", "d", "t.png"], ⟨some ImageFormat.png⟩)]).isFatal = false := by
  decide

/-- Claim C3 amended: a copy failure during relocation is propagated to the
caller as a recoverable error result (`fs::copy(..)?`), with the filesystem
unchanged; it is not a process abort. -/
theorem claim_C3_amended_copy_failure_is_recoverable
    (img : Image) (base : FsPath) (fname : String) (env : FsEnv) (fs : FS)
    (data : FileData)
    (hlast : img.path.getLast? = some fname)
    (hnotTex : ends_with img.path ["materials", "textures", fname] = false)
    (hnotMesh : ends_with img.path ["meshes", fname] = false)
    (hnew : ∃ np, get_new_textures_path img base = some np)
    (hcd : env.createDirFails = false)
    (hread : fsRead fs img.path = some data)
    (hcp : env.copyFails = true) :
    move_to_textures_dir img base env fs = .err fs ∧
    (move_to_textures_dir img base env fs).isFatal = false := by
  obtain ⟨np, hnp⟩ := hnew
  have h1 : move_to_textures_dir img base env fs = .err fs := by
    simp [move_to_textures_dir, hlast, hnotTex, hnotMesh, hnp, hcd, hread, hcp]
  exact ⟨h1, by rw [h1]; rfl⟩

/-- Claim C3 witness (for the amended statement): a concrete stray asset with
the copy failing yields the `err` result. -/
theorem claim_C3_witness :
    move_to_textures_dir ⟨["base", "m", "sub", "a.png"], "png"⟩ ["base"]
      ⟨false, false, false, false, false, true⟩
      [(["base", "m", "sub", "a.png"], ⟨some ImageFormat.png⟩)] =
      .err [(["base", "m", "sub", "a.png"], ⟨some ImageFormat.png⟩)] ∧
    (move_to_textures_dir ⟨["base", "m", "sub", "a.png"], "png"⟩ ["base"]
      ⟨false, false, false, false, false, true⟩
      [(["base", "m", "sub", "a.png"], ⟨some ImageFormat.png⟩)]).isFatal = false :=
  claim_C3_amended_copy_failure_is_recoverable
    ⟨["base", "m", "sub", "a.png"], "png"⟩ ["base"] "a.png" _ _ ⟨some ImageFormat.png⟩
    (by decide) (by decide) (by decide) ⟨["base", "m", "materials", "textures"], by decide⟩
    rfl rfl rfl

/-- Claim C4: when the copy into the canonical textures directory fails,
`move_to_textures_dir` stops before attempting the deletion: it returns the
error with the filesystem exactly as it was, and in that resulting state the
original file is still present. -/
theorem claim_C4_no_delete_without_successful_copy
    (img : Image) (base : FsPath) (fname : String) (env : FsEnv) (fs : FS)
    (data : FileData)
    (hlast : img.path.getLast? = some fname)
    (hnotTex : ends_with img.path ["materials", "textures", fname] = false)
    (hnotMesh : ends_with img.path ["meshes", fname] = false)
    (hnew : ∃ np, get_new_textures_path img base = some np)
    (hcd : env.createDirFails = false)
    (hread : fsRead fs img.path = some data)
    (hcp : env.copyFails = true) :
    move_to_textures_dir img base env fs = .err fs ∧
    fsRead (PipeResult.fsOf (move_to_textures_dir img base env fs)) img.path =
      some data := by
  obtain ⟨np, hnp⟩ := hnew
  have h1 : move_to_textures_dir img base env fs = .err fs := by
    simp [move_to_textures_dir, hlast, hnotTex, hnotMesh, hnp, hcd, hread, hcp]
  refine ⟨h1, ?_⟩
  rw [h1]
  exact hread

/-- Claim C4 witness: a concrete stray asset with the copy failing leaves the
original file on disk in the resulting state. -/
theorem claim_C4_witness :
    move_to_textures_dir ⟨["base", "n", "deep", "b.gif"], "gif"⟩ ["base"]
      ⟨false, false, false, false, false, true⟩
      [(["base", "n", "deep", "b.gif"], ⟨some ImageFormat.gif⟩)] =
      .err [(["base", "n", "deep", "b.gif"], ⟨some ImageFormat.gif⟩)] ∧
    fsRead
      (PipeResult.fsOf (move_to_textures_dir ⟨["base", "n", "deep", "b.gif"], "gif"⟩
        ["base"] ⟨false, false, false, false, false, true⟩
        [(["base", "n", "deep", "b.gif"], ⟨some ImageFormat.gif⟩)]))
      ["base", "n", "deep", "b.gif"] = some ⟨some ImageFormat.gif⟩ :=
  claim_C4_no_delete_without_successful_copy
    ⟨["base", "n", "deep", "b.gif"], "gif"⟩ ["base"] "b.gif" _ _ ⟨some ImageFormat.gif⟩
    (by decide) (by decide) (by decide) ⟨["base", "n", "materials", "textures"], by decide⟩
    rfl rfl rfl

/-- Claim C5: converting an asset for `example.jpg` with extension field
`"jpg"`, when every external call succeeds, yields an asset whose path points
to `example.png` at the same location, with `example.jpg` no longer on disk
and `example.png` present. -/
theorem claim_C5_jpg_round_trip
    (img : Image) (dir : FsPath) (env : FsEnv) (fs : FS) (data : FileData)
    (hpath : img.path = dir ++ ["example.jpg"])
    (hext : img.extension = "jpg")
    (hread : fsRead fs img.path = some data)
    (hfmt : data.format = some ImageFormat.jpeg)
    (h1 : env.openFails = false) (h2 : env.decodeFails = false)
    (h3 : env.saveFails = false) (h4 : env.removeFails = false) :
    convert_to_png img env fs =
      .ok { img with path := dir ++ ["example.png"] }
        (fsRemove (fsWrite fs (dir ++ ["example.png"]) ⟨some ImageFormat.png⟩)
          img.path) ∧
    fsRead (fsRemove (fsWrite fs (dir ++ ["example.png"]) ⟨some ImageFormat.png⟩)
        img.path) (dir ++ ["example.jpg"]) = none ∧
    fsRead (fsRemove (fsWrite fs (dir ++ ["example.png"]) ⟨some ImageFormat.png⟩)
        img.path) (dir ++ ["example.png"]) = some ⟨some ImageFormat.png⟩ := by
  have hstem : file_stem_of "example.jpg" ++ "." ++ "png" = "example.png" := by decide
  have hwe : with_extension img.path "png" = dir ++ ["example.png"] := by
    rw [hpath]
    simp [with_extension, List.getLast?_concat, List.dropLast_concat, hstem]
  have hnpng : ¬ img.extension = "png" := by rw [hext]; decide
  have hcond : data.format.isSome ∧ data.format ≠ some ImageFormat.tiff := by
    rw [hfmt]; exact ⟨rfl, by decide⟩
  have hne : dir ++ ["example.jpg"] ≠ dir ++ ["example.png"] := by
    intro h
    have hdrop := congrArg (fun l => List.drop dir.length l) h
    simp only [List.drop_left] at hdrop
    exact absurd hdrop (by decide)
  refine ⟨?_, ?_, ?_⟩
  · simp [convert_to_png, hnpng, convert, hread, h1, hcond, h2, h3, h4, hwe]
  · rw [hpath]
    exact fsRead_fsRemove_self _ _
  · rw [hpath]
    rw [fsRead_fsRemove_ne _ _ _ (Ne.symm hne)]
    exact fsRead_fsWrite_self _ _ _

/-- Claim C5 witness: the concrete round trip for `t/example.jpg`. -/
theorem claim_C5_witness :
    convert_to_png ⟨["t", "example.jpg"], "jpg"⟩ envAllOk
      [(["t", "example.jpg"], ⟨some ImageFormat.jpeg⟩)] =
      .ok ⟨["t"] ++ ["example.png"], "jpg"⟩
        (fsRemove (fsWrite [(["t", "example.jpg"], ⟨some ImageFormat.jpeg⟩)]
          (["t"] ++ ["example.png"]) ⟨some ImageFormat.png⟩) ["t", "example.jpg"]) ∧
    fsRead (fsRemove (fsWrite [(["t", "example.jpg"], ⟨some ImageFormat.jpeg⟩)]
        (["t"] ++ ["example.png"]) ⟨some ImageFormat.png⟩) ["t", "example.jpg"])
      (["t"] ++ ["example.jpg"]) = none ∧
    fsRead (fsRemove (fsWrite [(["t", "example.jpg"], ⟨some ImageFormat.jpeg⟩)]
        (["t"] ++ ["example.png"]) ⟨some ImageFormat.png⟩) ["t", "example.jpg"])
      (["t"] ++ ["example.png"]) = some ⟨some ImageFormat.png⟩ :=
  claim_C5_jpg_round_trip ⟨["t", "example.jpg"], "jpg"⟩ ["t"] envAllOk
    [(["t", "example.jpg"], ⟨some ImageFormat.jpeg⟩)] ⟨some ImageFormat.jpeg⟩
    rfl rfl rfl rfl rfl rfl rfl rfl

/-- Claim C8: every list `scan_dir_for_images` returns is sorted by the
extension field in descending lexicographic order: each element's extension is
greater than or equal to the next one's. -/
theorem claim_C8_scan_sorted_descending (root : DirTree) (rootPath : FsPath)
    (l : List Image) (h : scan_dir_for_images root rootPath = some l) :
    l.Pairwise (fun a b => extLe b.extension a.extension = true) := by
  unfold scan_dir_for_images at h
  cases hs : recursive_scan root rootPath [] with
  | none => rw [hs] at h; exact absurd h (by simp)
  | some imgs =>
    rw [hs] at h
    simp only [Option.some.injEq] at h
    haveI : IsTotal Image extDescRel := ⟨fun a b => charListLe_total _ _⟩
    haveI : IsTrans Image extDescRel :=
      ⟨fun _ _ _ hab hbc => charListLe_trans _ _ _ hbc hab⟩
    have hsort := List.sorted_insertionSort extDescRel imgs
    rw [h] at hsort
    exact hsort

/-- Claim C8 witness: the claim's own example — a tree holding `jpg`, `png`
and `tga` files scans to the order `tga, png, jpg`, and that list is pairwise
descending by extension. -/
theorem claim_C8_witness :
    scan_dir_for_images
      (.dir "root" true (.cons (.file "a.jpg") (.cons (.file "b.png")
        (.cons (.file "c.tga") .nil)))) ["root"] =
      some [⟨["root", "c.tga"], "tga"⟩, ⟨["root", "b.png"], "png"⟩,
            ⟨["root", "a.jpg"], "jpg"⟩] ∧
    ([⟨["root", "c.tga"], "tga"⟩, ⟨["root", "b.png"], "png"⟩,
      ⟨["root", "a.jpg"], "jpg"⟩] : List Image).Pairwise
      (fun a b => extLe b.extension a.extension = true) :=
  ⟨by decide,
    claim_C8_scan_sorted_descending
      (.dir "root" true (.cons (.file "a.jpg") (.cons (.file "b.png")
        (.cons (.file "c.tga") .nil)))) ["root"]
      [⟨["root", "c.tga"], "tga"⟩, ⟨["root", "b.png"], "png"⟩,
       ⟨["root", "a.jpg"], "jpg"⟩] (by decide)⟩
